import Mathlib

/-!
Shallow embedding of the SCU library core: the generic growable list
(`src/src/list.c`) and the xoshiro256** pseudorandom generator
(`src/unnamed/part_000`, the random component).

Modelling conventions:
* The C list is a header `(capacity, count, itemSize)` followed by a byte
  region holding `count` live items of `itemSize` bytes each.  We model a
  list of items of type `α` as a record carrying the three header fields
  (as unbounded `Int`, matching the signed 64-bit domain of the source)
  together with the sequence of live items.  Bytes past `count * itemSize`
  are indeterminate in C (uninitialized or left over), so they have no
  counterpart in the model.
* `malloc`/`realloc` success is an environment choice; each operation that
  may allocate takes an `allocOk : Bool` telling whether the single
  (re)allocation it can perform succeeds.  A successful `realloc` preserves
  the item bytes (the C library copies them), so the model keeps `items`.
* Functions returning an `SCUError` while mutating through a pointer are
  modelled as returning the error paired with the new state.
-/

namespace SCU

/-- Error codes of `include/SCU/error.h`. -/
inductive SCUError where
  | none
  | invalidArgument
  | outOfMemory
  | endOfFile
  | readingStreamFailed
  | writingBufferFailed
deriving DecidableEq

/-- An `SCUList` instance: the `SCUHeader` fields of `src/src/list.c` plus the
live items stored in the trailing flexible array member. -/
structure SCUList (α : Type) where
  capacity : Int
  count : Int
  itemSize : Int
  items : List α
deriving DecidableEq

/-- Initial capacity of an `SCUList` (`SCU_INITIAL_CAPACITY` in `list.c`). -/
def SCU_INITIAL_CAPACITY : Int := 8

/-- One round of the 1.5x growth rule of `scu_list_ensureCapacityInternal`:
`newCapacity = (newCapacity * 3 / 2) + 1` (C division truncates; the value is
nonnegative, so `Nat` floor division coincides with it). -/
def growStep (c : Nat) : Nat := c * 3 / 2 + 1

/-- The `while (newCapacity < capacity)` loop of
`scu_list_ensureCapacityInternal`: repeatedly apply `growStep` until the
required capacity is reached.  The accumulator is a `Nat` because it starts
from `max(capacity, SCU_INITIAL_CAPACITY) ≥ 8`. -/
def growLoop (required : Int) (newCapacity : Nat) : Nat :=
  if (newCapacity : Int) < required then growLoop required (growStep newCapacity)
  else newCapacity
termination_by (required - newCapacity).toNat
decreasing_by
  simp only [growStep]
  omega

/-- Embeds `scu_list_withCapacityInternal`: validate the arguments, allocate (the
`allocOk` flag is the fate of the `SCU_MALLOC` call) and initialize the
header.  A `nullptr` result is `Option.none`. -/
def scu_list_withCapacityInternal (α : Type) (allocOk : Bool) (capacity itemSize : Int) :
    Option (SCUList α) :=
  if capacity < 0 ∨ itemSize ≤ 0 then Option.none
  else if allocOk then Option.some ⟨capacity, 0, itemSize, []⟩
  else Option.none

/-- Embeds `scu_list_newInternal`: create with the default initial capacity. -/
def scu_list_newInternal (α : Type) (allocOk : Bool) (itemSize : Int) : Option (SCUList α) :=
  scu_list_withCapacityInternal α allocOk SCU_INITIAL_CAPACITY itemSize

/-- Embeds `scu_list_capacityInternal`. -/
def scu_list_capacityInternal (l : SCUList α) : Int := l.capacity

/-- Embeds `scu_list_countInternal`. -/
def scu_list_countInternal (l : SCUList α) : Int := l.count

/-- Embeds `scu_list_itemSizeInternal`. -/
def scu_list_itemSizeInternal (l : SCUList α) : Int := l.itemSize

/-- Embeds `scu_list_isEmptyInternal`. -/
def scu_list_isEmptyInternal (l : SCUList α) : Bool := l.count == 0

/-- Embeds `scu_list_ensureCapacityInternal`: reject a negative capacity, and grow
(with a single `SCU_REALLOC`, whose fate is `allocOk`) when the current
capacity is insufficient.  On a failed reallocation the original block is
untouched, so the pre-call state is returned. -/
def scu_list_ensureCapacityInternal (allocOk : Bool) (l : SCUList α) (capacity : Int) :
    SCUError × SCUList α :=
  if capacity < 0 then (SCUError.invalidArgument, l)
  else if l.capacity < capacity then
    let newCapacity : Int := growLoop capacity (max l.capacity SCU_INITIAL_CAPACITY).toNat
    if allocOk then (SCUError.none, { l with capacity := newCapacity })
    else (SCUError.outOfMemory, l)
  else (SCUError.none, l)

/-- Embeds `scu_list_addInternal`: ensure room for one more item, then `memcpy` the
item to index `count` and increment the count. -/
def scu_list_addInternal (allocOk : Bool) (l : SCUList α) (item : α) : SCUError × SCUList α :=
  match scu_list_ensureCapacityInternal allocOk l (l.count + 1) with
  | (SCUError.none, l') =>
      (SCUError.none, { l' with items := l'.items ++ [item], count := l'.count + 1 })
  | (error, l') => (error, l')

/-- Embeds `scu_list_addRangeInternal`: validate `count`, then (when `count > 0`)
ensure room and `memcpy` the first `count` source items to the tail.  The C
`items` pointer must address at least `count` items; the model receives them
as a list and copies `items.take count`. -/
def scu_list_addRangeInternal (allocOk : Bool) (l : SCUList α) (items : List α) (count : Int) :
    SCUError × SCUList α :=
  if count < 0 then (SCUError.invalidArgument, l)
  else if count > 0 then
    match scu_list_ensureCapacityInternal allocOk l (l.count + count) with
    | (SCUError.none, l') =>
        (SCUError.none,
          { l' with items := l'.items ++ items.take count.toNat, count := l'.count + count })
    | (error, l') => (error, l')
  else (SCUError.none, l)

/-- Embeds `scu_list_insertAtInternal`: validate the index, ensure room, `memmove`
the items at indices `[index, count)` one slot to the right and `memcpy` the
new item into slot `index`. -/
def scu_list_insertAtInternal (allocOk : Bool) (l : SCUList α) (index : Int) (item : α) :
    SCUError × SCUList α :=
  if index < 0 ∨ index > l.count then (SCUError.invalidArgument, l)
  else
    match scu_list_ensureCapacityInternal allocOk l (l.count + 1) with
    | (SCUError.none, l') =>
        (SCUError.none,
          { l' with
              items := l'.items.take index.toNat ++ item :: l'.items.drop index.toNat,
              count := l'.count + 1 })
    | (error, l') => (error, l')

/-- Embeds `scu_list_insertRangeInternal`: validate the index and count, then (when
`count > 0`) ensure room, `memmove` the items at `[index, count)` right by
`count` slots and `memcpy` the first `count` source items into the gap. -/
def scu_list_insertRangeInternal (allocOk : Bool) (l : SCUList α) (index : Int)
    (items : List α) (count : Int) : SCUError × SCUList α :=
  if index < 0 ∨ index > l.count ∨ count < 0 then (SCUError.invalidArgument, l)
  else if count > 0 then
    match scu_list_ensureCapacityInternal allocOk l (l.count + count) with
    | (SCUError.none, l') =>
        (SCUError.none,
          { l' with
              items := l'.items.take index.toNat ++ items.take count.toNat
                ++ l'.items.drop index.toNat,
              count := l'.count + count })
    | (error, l') => (error, l')
  else (SCUError.none, l)

/-- Embeds `scu_list_removeAtInternal`: validate the index and `memmove` the items at
`[index + 1, count)` one slot to the left. -/
def scu_list_removeAtInternal (l : SCUList α) (index : Int) : SCUError × SCUList α :=
  if index < 0 ∨ index ≥ l.count then (SCUError.invalidArgument, l)
  else
    (SCUError.none,
      { l with
          items := l.items.take index.toNat ++ l.items.drop (index.toNat + 1),
          count := l.count - 1 })

/-- Embeds `scu_list_removeRangeInternal`: validate the range and (when `count > 0`)
`memmove` the items at `[index + count, count)` left by `count` slots. -/
def scu_list_removeRangeInternal (l : SCUList α) (index : Int) (count : Int) :
    SCUError × SCUList α :=
  if index < 0 ∨ count < 0 ∨ index + count > l.count then (SCUError.invalidArgument, l)
  else if count > 0 then
    (SCUError.none,
      { l with
          items := l.items.take index.toNat ++ l.items.drop (index.toNat + count.toNat),
          count := l.count - count })
  else (SCUError.none, l)

/-- Embeds `scu_list_clearInternal`: reset the count to zero (the backing bytes are
kept but no longer live). -/
def scu_list_clearInternal (l : SCUList α) : SCUList α :=
  { l with count := 0, items := [] }

/-- Embeds `scu_list_trimToCountInternal`: when `capacity > count`, reallocate to a
block holding exactly `count` items (the `SCU_REALLOC` fate is `allocOk`) and
set the capacity to the count. -/
def scu_list_trimToCountInternal (allocOk : Bool) (l : SCUList α) : SCUError × SCUList α :=
  if l.capacity > l.count then
    if allocOk then (SCUError.none, { l with capacity := l.count })
    else (SCUError.outOfMemory, l)
  else (SCUError.none, l)

/-- One call of the public mutating surface of the list, with its arguments.
For the range operations the C `items` pointer is modelled by the list of
items it addresses (the caller contract is that it addresses at least
`count` of them). -/
inductive SCUOp (α : Type) where
  | add (item : α)
  | addRange (items : List α) (count : Int)
  | insertAt (index : Int) (item : α)
  | insertRange (index : Int) (items : List α) (count : Int)
  | removeAt (index : Int)
  | removeRange (index : Int) (count : Int)
  | clear
  | ensureCapacity (capacity : Int)
  | trimToCount

/-- Dispatch one operation to the corresponding `list.c` function; `allocOk`
is the fate of the (at most one) allocation the call can perform. -/
def execOp (allocOk : Bool) (l : SCUList α) : SCUOp α → SCUError × SCUList α
  | SCUOp.add item => scu_list_addInternal allocOk l item
  | SCUOp.addRange items count => scu_list_addRangeInternal allocOk l items count
  | SCUOp.insertAt index item => scu_list_insertAtInternal allocOk l index item
  | SCUOp.insertRange index items count =>
      scu_list_insertRangeInternal allocOk l index items count
  | SCUOp.removeAt index => scu_list_removeAtInternal l index
  | SCUOp.removeRange index count => scu_list_removeRangeInternal l index count
  | SCUOp.clear => (SCUError.none, scu_list_clearInternal l)
  | SCUOp.ensureCapacity capacity => scu_list_ensureCapacityInternal allocOk l capacity
  | SCUOp.trimToCount => scu_list_trimToCountInternal allocOk l

/-- The list states reached after each call of a sequence of operations (each
paired with the fate of its allocation, if any). -/
def execTrace (l : SCUList α) : List (Bool × SCUOp α) → List (SCUList α)
  | [] => []
  | p :: rest =>
      let l' := (execOp p.1 l p.2).2
      l' :: execTrace l' rest

/-- The caller contract of `scu_list_addRangeInternal` and
`scu_list_insertRangeInternal`: the `items` pointer addresses at least
`count` items (in C, violating this reads past the source buffer). -/
def opValid : SCUOp α → Prop
  | SCUOp.addRange items count => count ≤ (items.length : Int)
  | SCUOp.insertRange _ items count => count ≤ (items.length : Int)
  | _ => True

/-- Well-formedness of a live list state: the header invariant
`0 ≤ count ≤ capacity`, a positive item size, and the count agreeing with the
number of live items. -/
def WF (l : SCUList α) : Prop :=
  0 ≤ l.count ∧ l.count ≤ l.capacity ∧ 0 < l.itemSize ∧ l.count = (l.items.length : Int)

/-! ### The pseudorandom generator (`src/unnamed/part_000`) -/

/-- The `SCURandom` state: the seed and the four 64-bit words `state[0..3]`
of the xoshiro256** generator, as naturals below `2 ^ 64`. -/
structure SCURandom where
  seed : Nat
  s0 : Nat
  s1 : Nat
  s2 : Nat
  s3 : Nat
deriving DecidableEq

/-- Embeds `scu_rotateLeft`: rotate a 64-bit value left
(`(value << bits) | (value >> (64 - bits))`, shifts wrapping at 64 bits). -/
def scu_rotateLeft (value : Nat) (bits : Nat) : Nat :=
  ((value <<< bits) % 2 ^ 64) ||| (value >>> (64 - bits))

/-- Embeds `scu_next`: advance the xoshiro256** state and return the pseudorandom
output word together with the new state. -/
def scu_next (random : SCURandom) : Nat × SCURandom :=
  let result := (scu_rotateLeft (random.s1 * 5 % 2 ^ 64) 7 * 9) % 2 ^ 64
  let temp := random.s1 <<< 17 % 2 ^ 64
  let s2a := random.s2 ^^^ random.s0
  let s3a := random.s3 ^^^ random.s1
  let s1a := random.s1 ^^^ s2a
  let s0a := random.s0 ^^^ s3a
  let s2b := s2a ^^^ temp
  let s3b := scu_rotateLeft s3a 45
  (result, { random with s0 := s0a, s1 := s1a, s2 := s2b, s3 := s3b })

/-- One round of the SplitMix64 generator used by `scu_random_setSeed`:
`z = seed += 0x9E3779B97F4A7C15` followed by the two xor-multiply mixing
steps.  Returns the advanced seed accumulator and the output word. -/
def scu_splitmix64 (seed : Nat) : Nat × Nat :=
  let seed' := (seed + 0x9E3779B97F4A7C15) % 2 ^ 64
  let z1 := ((seed' ^^^ (seed' >>> 30)) * 0xBF58476D1CE4E5B9) % 2 ^ 64
  let z2 := ((z1 ^^^ (z1 >>> 27)) * 0x94D049BB133111EB) % 2 ^ 64
  (seed', z2 ^^^ (z2 >>> 31))

/-- Embeds `scu_random_setSeed`: store the seed and initialize `state[0..3]` with
four rounds of SplitMix64 seeded by it. -/
def scu_random_setSeed (random : SCURandom) (seed : Nat) : SCURandom :=
  let p0 := scu_splitmix64 seed
  let p1 := scu_splitmix64 p0.1
  let p2 := scu_splitmix64 p1.1
  let p3 := scu_splitmix64 p2.1
  { random with seed := seed, s0 := p0.2, s1 := p1.2, s2 := p2.2, s3 := p3.2 }

/-- Embeds `scu_random_withSeed`: allocate an `SCURandom` (fate `allocOk`; `junk` is
the indeterminate content of the fresh `SCU_MALLOC` block, every field of
which `scu_random_setSeed` overwrites) and seed it. -/
def scu_random_withSeed (junk : SCURandom) (allocOk : Bool) (seed : Nat) : Option SCURandom :=
  if allocOk then Option.some (scu_random_setSeed junk seed) else Option.none

/-- Embeds `scu_random_getSeed`: return the stored seed.  (The C declaration returns
it as an `int64_t` carrying the same 64-bit pattern.) -/
def scu_random_getSeed (random : SCURandom) : Nat := random.seed

/-- The sequence of the first `n` outputs of `scu_next` from a given state
(the pseudorandom word stream every sampling function draws from). -/
def scu_nextSeq (random : SCURandom) : Nat → List Nat
  | 0 => []
  | n + 1 =>
      let p := scu_next random
      p.1 :: scu_nextSeq p.2 n

/-- The capacity a successful `scu_list_ensureCapacityInternal` call with
requirement `m` leaves on a list whose capacity was `c`. -/
def ensuredCapacity (c m : Int) : Int :=
  if c < m then (growLoop m (max c SCU_INITIAL_CAPACITY).toNat : Int) else c

/-- Modelled from the spec: `insertRange` is claimed equivalent to `n`
sequential single-element inserts of the given items starting at position
`i` (each subsequent item one position further right), stopping at the
first failure. -/
def specSeqInsert (l : SCUList α) (i : Int) : List α → SCUError × SCUList α
  | [] => (SCUError.none, l)
  | x :: xs =>
      match scu_list_insertAtInternal true l i x with
      | (SCUError.none, l') => specSeqInsert l' (i + 1) xs
      | (e, l') => (e, l')

/-- Modelled from the spec: `removeRange` is claimed equivalent to `n`
sequential single-element removals at the same starting position, stopping
at the first failure. -/
def specSeqRemove (l : SCUList α) (i : Int) : Nat → SCUError × SCUList α
  | 0 => (SCUError.none, l)
  | n + 1 =>
      match scu_list_removeAtInternal l i with
      | (SCUError.none, l') => specSeqRemove l' i n
      | (e, l') => (e, l')

/-- The precondition violations the spec enumerates for each operation: a
negative capacity for `ensureCapacity`, a negative count for the range
operations, an index outside `[0, count]` for the inserts, an index outside
`[0, count)` for `removeAt`, and an invalid range for `removeRange`;
`add`, `clear` and `trimToCount` have no precondition. -/
def violates (l : SCUList α) : SCUOp α → Prop
  | SCUOp.add _ => False
  | SCUOp.addRange _ n => n < 0
  | SCUOp.insertAt i _ => i < 0 ∨ i > l.count
  | SCUOp.insertRange i _ n => i < 0 ∨ i > l.count ∨ n < 0
  | SCUOp.removeAt i => i < 0 ∨ i ≥ l.count
  | SCUOp.removeRange i n => i < 0 ∨ n < 0 ∨ i + n > l.count
  | SCUOp.clear => False
  | SCUOp.ensureCapacity c => c < 0
  | SCUOp.trimToCount => False

/-- Unfolding equation of the growth loop. -/
theorem growLoop_eq (required : Int) (c : Nat) :
    growLoop required c =
      if (c : Int) < required then growLoop required (growStep c) else c := by
  rw [growLoop]

/-- The growth loop reaches the required capacity. -/
theorem le_growLoop (required : Int) (c : Nat) : required ≤ (growLoop required c : Int) := by
  induction c using growLoop.induct required with
  | case1 c h ih => rw [growLoop_eq, if_pos h]; exact ih
  | case2 c h => rw [growLoop_eq, if_neg h]; omega

/-- The growth loop never shrinks its accumulator. -/
theorem self_le_growLoop (required : Int) (c : Nat) : c ≤ growLoop required c := by
  induction c using growLoop.induct required with
  | case1 c h ih =>
    rw [growLoop_eq, if_pos h]
    refine le_trans ?_ ih
    simp only [growStep]
    omega
  | case2 c h => rw [growLoop_eq, if_neg h]

/-- Growing to `m` and then to `m' ≥ m` lands on the same capacity as growing
to `m'` directly: both walk the same `growStep` chain. -/
theorem growLoop_comp (m m' : Int) (h : m ≤ m') (c : Nat) :
    growLoop m' (growLoop m c) = growLoop m' c := by
  induction c using growLoop.induct m with
  | case1 c hc ih =>
    rw [growLoop_eq m, if_pos hc, ih]
    rw [growLoop_eq m' c, if_pos (lt_of_lt_of_le hc h)]
  | case2 c hc => rw [growLoop_eq m, if_neg hc]

/-- The growth loop computes an iterate of `growStep`, and every earlier
iterate is still below the requirement. -/
theorem growLoop_iterate (required : Int) (c : Nat) :
    ∃ k, growLoop required c = growStep^[k] c ∧
      ∀ j < k, ((growStep^[j] c : Nat) : Int) < required := by
  induction c using growLoop.induct required with
  | case1 c h ih =>
    obtain ⟨k, hk, hlt⟩ := ih
    refine ⟨k + 1, ?_, ?_⟩
    · rw [growLoop_eq, if_pos h, hk, Function.iterate_succ_apply]
    · intro j hj
      cases j with
      | zero => simpa using h
      | succ j =>
        rw [Function.iterate_succ_apply]
        exact hlt j (by omega)
  | case2 c h =>
    exact ⟨0, by rw [growLoop_eq, if_neg h]; rfl, by omega⟩

/-- Shape of a successful `ensureCapacity` with a working allocator. -/
theorem ensure_true_eq (l : SCUList α) (m : Int) (hm : 0 ≤ m) :
    scu_list_ensureCapacityInternal true l m =
      (SCUError.none, { l with capacity := ensuredCapacity l.capacity m }) := by
  unfold scu_list_ensureCapacityInternal ensuredCapacity
  rw [if_neg (by omega)]
  split
  · rfl
  · rfl

theorem le_ensuredCapacity (c m : Int) : m ≤ ensuredCapacity c m := by
  unfold ensuredCapacity
  split
  · exact le_growLoop m _
  · omega

theorem self_le_ensuredCapacity (c m : Int) : c ≤ ensuredCapacity c m := by
  unfold ensuredCapacity
  split
  · calc c ≤ ((max c SCU_INITIAL_CAPACITY).toNat : Int) := by
          simp only [SCU_INITIAL_CAPACITY]; omega
      _ ≤ _ := by exact_mod_cast self_le_growLoop m _
  · exact le_refl c

theorem eight_le_ensured_start (c : Int) :
    8 ≤ ((max c SCU_INITIAL_CAPACITY).toNat : Int) := by
  simp only [SCU_INITIAL_CAPACITY]; omega

/-- Ensuring capacity `m` and then `m' ≥ m` lands on the same capacity as
ensuring `m'` directly. -/
theorem ensuredCapacity_comp (c m m' : Int) (h : m ≤ m') :
    ensuredCapacity (ensuredCapacity c m) m' = ensuredCapacity c m' := by
  by_cases hc : c < m
  · have hstart : (8 : Int) ≤ ((max c SCU_INITIAL_CAPACITY).toNat : Int) :=
      eight_le_ensured_start c
    set s := (max c SCU_INITIAL_CAPACITY).toNat with hs
    have hg8 : (8 : Int) ≤ ((growLoop m s : Nat) : Int) := by
      calc (8 : Int) ≤ (s : Int) := hstart
        _ ≤ _ := by exact_mod_cast self_le_growLoop m s
    have hcm' : c < m' := lt_of_lt_of_le hc h
    have hfirst : ensuredCapacity c m = ((growLoop m s : Nat) : Int) := by
      unfold ensuredCapacity; rw [if_pos hc]
    rw [hfirst]
    by_cases hg : ((growLoop m s : Nat) : Int) < m'
    · unfold ensuredCapacity
      rw [if_pos hg, if_pos hcm']
      have hmax : max ((growLoop m s : Nat) : Int) SCU_INITIAL_CAPACITY
          = ((growLoop m s : Nat) : Int) := by
        simp only [SCU_INITIAL_CAPACITY]; omega
      rw [hmax, Int.toNat_natCast, growLoop_comp m m' h]
    · unfold ensuredCapacity
      rw [if_neg hg, if_pos hcm']
      have hstop : growLoop m' (growLoop m s) = growLoop m s := by
        rw [growLoop_eq m' (growLoop m s), if_neg hg]
      rw [← growLoop_comp m m' h s, hstop]
  · have : ensuredCapacity c m = c := by unfold ensuredCapacity; rw [if_neg hc]
    rw [this]



/-- Any successful `ensureCapacity` call (whatever the allocator did) leaves
exactly the ensured capacity and changes nothing else. -/
theorem ensure_success (allocOk : Bool) (l l' : SCUList α) (m : Int)
    (h : scu_list_ensureCapacityInternal allocOk l m = (SCUError.none, l')) :
    l' = { l with capacity := ensuredCapacity l.capacity m } := by
  by_cases h0 : m < 0
  · simp [scu_list_ensureCapacityInternal, h0] at h
  · by_cases h1 : l.capacity < m
    · cases allocOk with
      | false => simp [scu_list_ensureCapacityInternal, h0, h1] at h
      | true =>
        simp [scu_list_ensureCapacityInternal, h0, h1] at h
        rw [← h]
        simp [ensuredCapacity, h1]
    · simp [scu_list_ensureCapacityInternal, h0, h1] at h
      rw [← h]
      simp [ensuredCapacity, h1]

/-- A failed `ensureCapacity` call returns the pre-call state. -/
theorem ensure_fail (allocOk : Bool) (l l' : SCUList α) (m : Int) (e : SCUError)
    (h : scu_list_ensureCapacityInternal allocOk l m = (e, l')) (he : e ≠ SCUError.none) :
    l' = l := by
  unfold scu_list_ensureCapacityInternal at h
  split at h
  · injection h with h1 h2
    exact h2.symm
  · split at h
    · split at h
      · injection h with h1 h2
        exact absurd h1.symm he
      · injection h with h1 h2
        exact h2.symm
    · injection h with h1 h2
      exact absurd h1.symm he



/-- Shape of a successful `add` with a working allocator. -/
theorem add_true_eq (l : SCUList α) (x : α) (h : 0 ≤ l.count) :
    scu_list_addInternal true l x =
      (SCUError.none,
        ⟨ensuredCapacity l.capacity (l.count + 1), l.count + 1, l.itemSize,
          l.items ++ [x]⟩) := by
  unfold scu_list_addInternal
  rw [ensure_true_eq l (l.count + 1) (by omega)]

/-- Shape of a successful `addRange` with a positive count and a working
allocator. -/
theorem addRange_true_eq (l : SCUList α) (xs : List α) (n : Int) (h : 0 ≤ l.count)
    (hn : 0 < n) :
    scu_list_addRangeInternal true l xs n =
      (SCUError.none,
        ⟨ensuredCapacity l.capacity (l.count + n), l.count + n, l.itemSize,
          l.items ++ xs.take n.toNat⟩) := by
  unfold scu_list_addRangeInternal
  rw [if_neg (by omega), if_pos hn, ensure_true_eq l (l.count + n) (by omega)]

/-- Calling `addRange` with a zero count is a no-op, whatever the allocator and the
source pointer. -/
theorem addRange_zero (allocOk : Bool) (l : SCUList α) (xs : List α) :
    scu_list_addRangeInternal allocOk l xs 0 = (SCUError.none, l) := by
  unfold scu_list_addRangeInternal
  rw [if_neg (by omega), if_neg (by omega)]

/-- Shape of a successful `insertAt` with a working allocator. -/
theorem insertAt_true_eq (l : SCUList α) (i : Int) (x : α) (h0 : 0 ≤ i) (h1 : i ≤ l.count) :
    scu_list_insertAtInternal true l i x =
      (SCUError.none,
        ⟨ensuredCapacity l.capacity (l.count + 1), l.count + 1, l.itemSize,
          l.items.take i.toNat ++ x :: l.items.drop i.toNat⟩) := by
  unfold scu_list_insertAtInternal
  rw [if_neg (by omega), ensure_true_eq l (l.count + 1) (by omega)]

/-- Shape of a successful `insertRange` with a positive count and a working
allocator. -/
theorem insertRange_true_eq (l : SCUList α) (i : Int) (xs : List α) (n : Int)
    (h0 : 0 ≤ i) (h1 : i ≤ l.count) (hn : 0 < n) :
    scu_list_insertRangeInternal true l i xs n =
      (SCUError.none,
        ⟨ensuredCapacity l.capacity (l.count + n), l.count + n, l.itemSize,
          l.items.take i.toNat ++ xs.take n.toNat ++ l.items.drop i.toNat⟩) := by
  unfold scu_list_insertRangeInternal
  rw [if_neg (by omega), if_pos hn, ensure_true_eq l (l.count + n) (by omega)]

/-- Calling `insertRange` with a zero count at a valid index is a no-op, whatever the
allocator and the source pointer. -/
theorem insertRange_zero (allocOk : Bool) (l : SCUList α) (i : Int) (xs : List α)
    (h0 : 0 ≤ i) (h1 : i ≤ l.count) :
    scu_list_insertRangeInternal allocOk l i xs 0 = (SCUError.none, l) := by
  unfold scu_list_insertRangeInternal
  rw [if_neg (by omega), if_neg (by omega)]

/-- Shape of a successful `removeAt`. -/
theorem removeAt_eq (l : SCUList α) (i : Int) (h0 : 0 ≤ i) (h1 : i < l.count) :
    scu_list_removeAtInternal l i =
      (SCUError.none,
        ⟨l.capacity, l.count - 1, l.itemSize,
          l.items.take i.toNat ++ l.items.drop (i.toNat + 1)⟩) := by
  unfold scu_list_removeAtInternal
  rw [if_neg (by omega)]

/-- Shape of a successful `removeRange` with a positive count. -/
theorem removeRange_eq (l : SCUList α) (i n : Int) (h0 : 0 ≤ i) (hn : 0 < n)
    (h1 : i + n ≤ l.count) :
    scu_list_removeRangeInternal l i n =
      (SCUError.none,
        ⟨l.capacity, l.count - n, l.itemSize,
          l.items.take i.toNat ++ l.items.drop (i.toNat + n.toNat)⟩) := by
  unfold scu_list_removeRangeInternal
  rw [if_neg (by omega), if_pos hn]

/-- Calling `removeRange` with a zero count at a valid index (including the
one-past-the-end index) is a no-op. -/
theorem removeRange_zero (l : SCUList α) (i : Int) (h0 : 0 ≤ i) (h1 : i ≤ l.count) :
    scu_list_removeRangeInternal l i 0 = (SCUError.none, l) := by
  unfold scu_list_removeRangeInternal
  rw [if_neg (by omega), if_neg (by omega)]



/-- A state extended by `k` new items after ensuring capacity `count + k` is
well-formed. -/
theorem wf_mk (l : SCUList α) (hwf : WF l) (k : Int) (newItems : List α)
    (hk : 0 ≤ k) (hlen : (newItems.length : Int) = l.count + k) :
    WF (⟨ensuredCapacity l.capacity (l.count + k), l.count + k, l.itemSize,
      newItems⟩ : SCUList α) := by
  obtain ⟨h1, h2, h3, h4⟩ := hwf
  refine ⟨?_, ?_, ?_, ?_⟩
  · show (0 : Int) ≤ l.count + k
    omega
  · show l.count + k ≤ ensuredCapacity l.capacity (l.count + k)
    exact le_ensuredCapacity _ _
  · exact h3
  · show l.count + k = (newItems.length : Int)
    omega

/-- Every public operation preserves well-formedness and the item size,
whatever its arguments and the allocator's fate. -/
theorem execOp_wf (ok : Bool) (l : SCUList α) (op : SCUOp α) (hwf : WF l) (hv : opValid op) :
    WF (execOp ok l op).2 ∧ (execOp ok l op).2.itemSize = l.itemSize := by
  obtain ⟨h1, h2, h3, h4⟩ := hwf
  cases op with
  | add x =>
    rcases hE : scu_list_ensureCapacityInternal ok l (l.count + 1) with ⟨e, l'⟩
    cases e
    ·
      have hs := ensure_success ok l l' _ hE
      subst hs
      simp only [execOp, scu_list_addInternal, hE]
      refine ⟨wf_mk l ⟨h1, h2, h3, h4⟩ 1 (l.items ++ [x]) (by omega) (by simp; omega),
        by trivial⟩
    all_goals
      have hf := ensure_fail ok l l' _ _ hE (by simp)
      subst hf
      simp only [execOp, scu_list_addInternal, hE]
      exact ⟨⟨h1, h2, h3, h4⟩, by trivial⟩
  | addRange xs n =>
    by_cases hn0 : n < 0
    · simp only [execOp, scu_list_addRangeInternal, if_pos hn0]
      exact ⟨⟨h1, h2, h3, h4⟩, by trivial⟩
    · by_cases hn1 : n > 0
      · simp only [execOp, scu_list_addRangeInternal, if_neg hn0, if_pos hn1]
        rcases hE : scu_list_ensureCapacityInternal ok l (l.count + n) with ⟨e, l'⟩
        cases e
        ·
          have hs := ensure_success ok l l' _ hE
          subst hs
          have hvx : n ≤ (xs.length : Int) := hv
          refine ⟨wf_mk l ⟨h1, h2, h3, h4⟩ n (l.items ++ xs.take n.toNat) (by omega)
            (by simp [List.length_take]; omega), by trivial⟩
        all_goals
          have hf := ensure_fail ok l l' _ _ hE (by simp)
          subst hf
          exact ⟨⟨h1, h2, h3, h4⟩, by trivial⟩
      · simp only [execOp, scu_list_addRangeInternal, if_neg hn0, if_neg hn1]
        exact ⟨⟨h1, h2, h3, h4⟩, by trivial⟩
  | insertAt i x =>
    by_cases hi : i < 0 ∨ i > l.count
    · simp only [execOp, scu_list_insertAtInternal, if_pos hi]
      exact ⟨⟨h1, h2, h3, h4⟩, by trivial⟩
    · simp only [execOp, scu_list_insertAtInternal, if_neg hi]
      rcases hE : scu_list_ensureCapacityInternal ok l (l.count + 1) with ⟨e, l'⟩
      cases e
      ·
        have hs := ensure_success ok l l' _ hE
        subst hs
        refine ⟨wf_mk l ⟨h1, h2, h3, h4⟩ 1
          (l.items.take i.toNat ++ x :: l.items.drop i.toNat) (by omega)
          (by simp [List.length_take, List.length_drop]; omega), by trivial⟩
      all_goals
        have hf := ensure_fail ok l l' _ _ hE (by simp)
        subst hf
        exact ⟨⟨h1, h2, h3, h4⟩, by trivial⟩
  | insertRange i xs n =>
    by_cases hi : i < 0 ∨ i > l.count ∨ n < 0
    · simp only [execOp, scu_list_insertRangeInternal, if_pos hi]
      exact ⟨⟨h1, h2, h3, h4⟩, by trivial⟩
    · by_cases hn1 : n > 0
      · simp only [execOp, scu_list_insertRangeInternal, if_neg hi, if_pos hn1]
        rcases hE : scu_list_ensureCapacityInternal ok l (l.count + n) with ⟨e, l'⟩
        cases e
        ·
          have hs := ensure_success ok l l' _ hE
          subst hs
          have hvx : n ≤ (xs.length : Int) := hv
          refine ⟨wf_mk l ⟨h1, h2, h3, h4⟩ n
            (l.items.take i.toNat ++ xs.take n.toNat ++ l.items.drop i.toNat) (by omega)
            (by simp [List.length_take, List.length_drop]; omega), by trivial⟩
        all_goals
          have hf := ensure_fail ok l l' _ _ hE (by simp)
          subst hf
          exact ⟨⟨h1, h2, h3, h4⟩, by trivial⟩
      · simp only [execOp, scu_list_insertRangeInternal, if_neg hi, if_neg hn1]
        exact ⟨⟨h1, h2, h3, h4⟩, by trivial⟩
  | removeAt i =>
    by_cases hi : i < 0 ∨ i ≥ l.count
    · simp only [execOp, scu_list_removeAtInternal, if_pos hi]
      exact ⟨⟨h1, h2, h3, h4⟩, by trivial⟩
    · simp only [execOp, scu_list_removeAtInternal, if_neg hi]
      refine ⟨⟨?_, ?_, h3, ?_⟩, by trivial⟩
      · show (0 : Int) ≤ l.count - 1
        omega
      · show l.count - 1 ≤ l.capacity
        omega
      · show l.count - 1
          = ((l.items.take i.toNat ++ l.items.drop (i.toNat + 1)).length : Int)
        simp [List.length_take, List.length_drop]
        omega
  | removeRange i n =>
    by_cases hi : i < 0 ∨ n < 0 ∨ i + n > l.count
    · simp only [execOp, scu_list_removeRangeInternal, if_pos hi]
      exact ⟨⟨h1, h2, h3, h4⟩, by trivial⟩
    · by_cases hn1 : n > 0
      · simp only [execOp, scu_list_removeRangeInternal, if_neg hi, if_pos hn1]
        refine ⟨⟨?_, ?_, h3, ?_⟩, by trivial⟩
        · show (0 : Int) ≤ l.count - n
          omega
        · show l.count - n ≤ l.capacity
          omega
        · show l.count - n
            = ((l.items.take i.toNat ++ l.items.drop (i.toNat + n.toNat)).length : Int)
          simp [List.length_take, List.length_drop]
          omega
      · simp only [execOp, scu_list_removeRangeInternal, if_neg hi, if_neg hn1]
        exact ⟨⟨h1, h2, h3, h4⟩, by trivial⟩
  | clear =>
    simp only [execOp, scu_list_clearInternal]
    refine ⟨⟨le_refl 0, ?_, h3, ?_⟩, by trivial⟩
    · show (0 : Int) ≤ l.capacity
      omega
    · show (0 : Int) = (([] : List α).length : Int)
      simp
  | ensureCapacity m =>
    rcases hE : scu_list_ensureCapacityInternal ok l m with ⟨e, l'⟩
    cases e
    ·
      have hs := ensure_success ok l l' _ hE
      subst hs
      simp only [execOp, hE]
      refine ⟨⟨h1, ?_, h3, h4⟩, by trivial⟩
      show l.count ≤ ensuredCapacity l.capacity m
      have := self_le_ensuredCapacity l.capacity m
      omega
    all_goals
      have hf := ensure_fail ok l l' _ _ hE (by simp)
      subst hf
      simp only [execOp, hE]
      exact ⟨⟨h1, h2, h3, h4⟩, by trivial⟩
  | trimToCount =>
    by_cases hc : l.capacity > l.count
    · cases ok with
      | true =>
        show WF (scu_list_trimToCountInternal true l).2 ∧ (scu_list_trimToCountInternal true l).2.itemSize = l.itemSize
        have htr : scu_list_trimToCountInternal true l
            = (SCUError.none, { l with capacity := l.count }) := by
          unfold scu_list_trimToCountInternal
          rw [if_pos hc, if_pos rfl]
        rw [htr]
        exact ⟨⟨h1, le_refl _, h3, h4⟩, by trivial⟩
      | false =>
        show WF (scu_list_trimToCountInternal false l).2 ∧ (scu_list_trimToCountInternal false l).2.itemSize = l.itemSize
        have htr : scu_list_trimToCountInternal false l = (SCUError.outOfMemory, l) := by
          unfold scu_list_trimToCountInternal
          rw [if_pos hc]
          rfl
        rw [htr]
        exact ⟨⟨h1, h2, h3, h4⟩, by trivial⟩
    · show WF (scu_list_trimToCountInternal ok l).2 ∧ (scu_list_trimToCountInternal ok l).2.itemSize = l.itemSize
      have htr : scu_list_trimToCountInternal ok l = (SCUError.none, l) := by
        unfold scu_list_trimToCountInternal
        rw [if_neg hc]
      rw [htr]
      exact ⟨⟨h1, h2, h3, h4⟩, by trivial⟩



/-- Along any operation sequence from a well-formed state, every intermediate
state is well-formed and keeps the item size. -/
theorem execTrace_wf (l : SCUList α) (hwf : WF l) (ops : List (Bool × SCUOp α))
    (hops : ∀ p ∈ ops, opValid p.2) :
    ∀ l' ∈ execTrace l ops, WF l' ∧ l'.itemSize = l.itemSize := by
  induction ops generalizing l with
  | nil =>
    intro l' h
    simp [execTrace] at h
  | cons p rest ih =>
    intro l' hmem
    simp only [execTrace] at hmem
    obtain ⟨hw, hi⟩ := execOp_wf p.1 l p.2 hwf (hops p (by simp))
    rcases List.mem_cons.mp hmem with rfl | hmem
    · exact ⟨hw, hi⟩
    · obtain ⟨hw', hi'⟩ := ih _ hw (fun q hq => hops q (by simp [hq])) l' hmem
      exact ⟨hw', hi'.trans hi⟩

/-- Claim C1: for every live list and every sequence of public operations
(respecting the caller contract that range sources address enough items),
after each call the state satisfies `0 ≤ count ≤ capacity` and
`itemSize > 0`, and `itemSize` keeps the value given at creation. -/
theorem claim_C1 {α : Type} (c s : Int) (l0 : SCUList α)
    (hcreate : scu_list_withCapacityInternal α true c s = Option.some l0)
    (ops : List (Bool × SCUOp α)) (hops : ∀ p ∈ ops, opValid p.2) :
    ∀ l' ∈ execTrace l0 ops,
      0 ≤ l'.count ∧ l'.count ≤ l'.capacity ∧ 0 < l'.itemSize ∧ l'.itemSize = s := by
  have hl0 : l0 = ⟨c, 0, s, []⟩ ∧ ¬(c < 0 ∨ s ≤ 0) := by
    unfold scu_list_withCapacityInternal at hcreate
    split at hcreate
    · exact absurd hcreate (by simp)
    · rename_i hg
      simp at hcreate
      exact ⟨hcreate.symm, hg⟩
  obtain ⟨hl0, hguard⟩ := hl0
  subst hl0
  have hwf : WF (⟨c, 0, s, []⟩ : SCUList α) :=
    ⟨le_refl 0, by simpa using by omega, by simpa using by omega, by simp⟩
  intro l' hmem
  obtain ⟨⟨w1, w2, w3, w4⟩, hi⟩ := execTrace_wf _ hwf ops hops l' hmem
  exact ⟨w1, w2, w3, hi⟩

/-- Claim C1 witness: a concrete creation and operation sequence. -/
theorem claim_C1_witness :
    scu_list_withCapacityInternal Int true 2 1 = Option.some ⟨2, 0, 1, []⟩
    ∧ ∀ l' ∈ execTrace (⟨2, 0, 1, []⟩ : SCUList Int) [(true, SCUOp.add 5)],
        0 ≤ l'.count ∧ l'.count ≤ l'.capacity ∧ 0 < l'.itemSize ∧ l'.itemSize = 1 :=
  ⟨by decide,
    claim_C1 2 1 _ (by decide) _
      (by
        intro p hp
        rcases List.mem_singleton.mp hp with rfl
        trivial)⟩

/-- Claim C2: an operation that reports `OUT_OF_MEMORY` leaves the list in
exactly its pre-call state. -/
theorem claim_C2 (ok : Bool) (l : SCUList α) (op : SCUOp α)
    (h : (execOp ok l op).1 = SCUError.outOfMemory) : (execOp ok l op).2 = l := by
  cases op with
  | add x =>
    rcases hE : scu_list_ensureCapacityInternal ok l (l.count + 1) with ⟨e, l'⟩
    simp only [execOp, scu_list_addInternal, hE] at h ⊢
    cases e
    · simp at h
    all_goals exact ensure_fail ok l l' _ _ hE (by simp)
  | addRange xs n =>
    by_cases hn0 : n < 0
    · simp only [execOp, scu_list_addRangeInternal, if_pos hn0] at h
      simp at h
    · by_cases hn1 : n > 0
      · rcases hE : scu_list_ensureCapacityInternal ok l (l.count + n) with ⟨e, l'⟩
        simp only [execOp, scu_list_addRangeInternal, if_neg hn0, if_pos hn1, hE] at h ⊢
        cases e
        · simp at h
        all_goals exact ensure_fail ok l l' _ _ hE (by simp)
      · simp only [execOp, scu_list_addRangeInternal, if_neg hn0, if_neg hn1] at h
        simp at h
  | insertAt i x =>
    by_cases hi : i < 0 ∨ i > l.count
    · simp only [execOp, scu_list_insertAtInternal, if_pos hi] at h
      simp at h
    · rcases hE : scu_list_ensureCapacityInternal ok l (l.count + 1) with ⟨e, l'⟩
      simp only [execOp, scu_list_insertAtInternal, if_neg hi, hE] at h ⊢
      cases e
      · simp at h
      all_goals exact ensure_fail ok l l' _ _ hE (by simp)
  | insertRange i xs n =>
    by_cases hi : i < 0 ∨ i > l.count ∨ n < 0
    · simp only [execOp, scu_list_insertRangeInternal, if_pos hi] at h
      simp at h
    · by_cases hn1 : n > 0
      · rcases hE : scu_list_ensureCapacityInternal ok l (l.count + n) with ⟨e, l'⟩
        simp only [execOp, scu_list_insertRangeInternal, if_neg hi, if_pos hn1, hE] at h ⊢
        cases e
        · simp at h
        all_goals exact ensure_fail ok l l' _ _ hE (by simp)
      · simp only [execOp, scu_list_insertRangeInternal, if_neg hi, if_neg hn1] at h
        simp at h
  | removeAt i =>
    by_cases hi : i < 0 ∨ i ≥ l.count
    · simp only [execOp, scu_list_removeAtInternal, if_pos hi] at h
      simp at h
    · simp only [execOp, scu_list_removeAtInternal, if_neg hi] at h
      simp at h
  | removeRange i n =>
    by_cases hi : i < 0 ∨ n < 0 ∨ i + n > l.count
    · simp only [execOp, scu_list_removeRangeInternal, if_pos hi] at h
      simp at h
    · by_cases hn1 : n > 0
      · simp only [execOp, scu_list_removeRangeInternal, if_neg hi, if_pos hn1] at h
        simp at h
      · simp only [execOp, scu_list_removeRangeInternal, if_neg hi, if_neg hn1] at h
        simp at h
  | clear =>
    simp only [execOp] at h
    simp at h
  | ensureCapacity m =>
    rcases hE : scu_list_ensureCapacityInternal ok l m with ⟨e, l'⟩
    simp only [execOp, hE] at h ⊢
    cases e
    · simp at h
    all_goals exact ensure_fail ok l l' _ _ hE (by simp)
  | trimToCount =>
    by_cases hc : l.capacity > l.count
    · cases ok with
      | true =>
        have htr : scu_list_trimToCountInternal true l
            = (SCUError.none, { l with capacity := l.count }) := by
          unfold scu_list_trimToCountInternal
          rw [if_pos hc, if_pos rfl]
        simp only [execOp, htr] at h
        simp at h
      | false =>
        have htr : scu_list_trimToCountInternal false l = (SCUError.outOfMemory, l) := by
          unfold scu_list_trimToCountInternal
          rw [if_pos hc]
          rfl
        simp only [execOp, htr]
    · have htr : scu_list_trimToCountInternal ok l = (SCUError.none, l) := by
        unfold scu_list_trimToCountInternal
        rw [if_neg hc]
      simp only [execOp, htr] at h
      simp at h

/-- Claim C2 witness: a failed reallocation during `trimToCount` leaves a
concrete list untouched. -/
theorem claim_C2_witness :
    ((execOp false (⟨2, 1, 1, [5]⟩ : SCUList Int) SCUOp.trimToCount).1
      = SCUError.outOfMemory)
    ∧ (execOp false (⟨2, 1, 1, [5]⟩ : SCUList Int) SCUOp.trimToCount).2 = ⟨2, 1, 1, [5]⟩ :=
  ⟨by decide, claim_C2 false ⟨2, 1, 1, [5]⟩ SCUOp.trimToCount (by decide)⟩



/-- The growth loop from 8 with requirement 9 takes one step to 13. -/
theorem growLoop_nine_eight : growLoop 9 8 = 13 := by
  rw [growLoop_eq]
  norm_num [growStep]
  rw [growLoop_eq]
  norm_num

/-- Claim C3: a successful growing `ensureCapacity(n)` sets the capacity to
the value reached from `max(current, 8)` by iterating `new = old*3/2 + 1`
until it meets `n`; and a default-capacity list holds capacity 13, count 9
and the items `0..8` in order after nine `add` calls. -/
theorem claim_C3 :
    (∀ (l : SCUList Int) (n : Int), 0 ≤ n → l.capacity < n →
      ∃ k : Nat,
        scu_list_ensureCapacityInternal true l n
          = (SCUError.none,
              { l with capacity :=
                  ((growStep^[k] (max l.capacity SCU_INITIAL_CAPACITY).toNat : Nat) : Int) })
        ∧ n ≤ ((growStep^[k] (max l.capacity SCU_INITIAL_CAPACITY).toNat : Nat) : Int)
        ∧ ∀ j < k, ((growStep^[j] (max l.capacity SCU_INITIAL_CAPACITY).toNat : Nat) : Int) < n)
    ∧ scu_list_newInternal Int true 8 = Option.some ⟨8, 0, 8, []⟩
    ∧ List.foldl (fun l x => (scu_list_addInternal true l x).2)
        (⟨8, 0, 8, []⟩ : SCUList Int) [0, 1, 2, 3, 4, 5, 6, 7, 8]
        = ⟨13, 9, 8, [0, 1, 2, 3, 4, 5, 6, 7, 8]⟩ := by
  refine ⟨?_, by decide, ?_⟩
  · intro l n hn hlt
    obtain ⟨k, hk, hbelow⟩ := growLoop_iterate n (max l.capacity SCU_INITIAL_CAPACITY).toNat
    refine ⟨k, ?_, ?_, ?_⟩
    · rw [ensure_true_eq l n hn]
      unfold ensuredCapacity
      rw [if_pos hlt, hk]
    · rw [← hk]
      exact le_growLoop n _
    · exact hbelow
  · simp [scu_list_addInternal, scu_list_ensureCapacityInternal, SCU_INITIAL_CAPACITY,
      growLoop_nine_eight]

/-- Claim C3 witness: instantiating the growth rule at capacity 3,
requirement 4. -/
theorem claim_C3_witness :
    (0 : Int) ≤ 4 ∧ (⟨3, 3, 8, [1, 2, 3]⟩ : SCUList Int).capacity < 4
    ∧ ∃ k : Nat,
        scu_list_ensureCapacityInternal true (⟨3, 3, 8, [1, 2, 3]⟩ : SCUList Int) 4
          = (SCUError.none,
              { (⟨3, 3, 8, [1, 2, 3]⟩ : SCUList Int) with capacity :=
                  ((growStep^[k]
                    (max (⟨3, 3, 8, [1, 2, 3]⟩ : SCUList Int).capacity
                      SCU_INITIAL_CAPACITY).toNat : Nat) : Int) })
        ∧ (4 : Int) ≤ ((growStep^[k]
              (max (⟨3, 3, 8, [1, 2, 3]⟩ : SCUList Int).capacity
                SCU_INITIAL_CAPACITY).toNat : Nat) : Int)
        ∧ ∀ j < k, ((growStep^[j]
              (max (⟨3, 3, 8, [1, 2, 3]⟩ : SCUList Int).capacity
                SCU_INITIAL_CAPACITY).toNat : Nat) : Int) < 4 :=
  ⟨by decide, by decide, claim_C3.1 ⟨3, 3, 8, [1, 2, 3]⟩ 4 (by decide) (by decide)⟩



/-- Claim C4: a successful `insertAt(i, x)` puts `x` at index `i`, shifts the
elements previously at indices `≥ i` up by one, keeps the elements before `i`
and increments the count. -/
theorem claim_C4 {α : Type} (l : SCUList α) (i : Int) (x : α) (l' : SCUList α)
    (hwf : WF l)
    (h : scu_list_insertAtInternal true l i x = (SCUError.none, l')) :
    l'.items = l.items.take i.toNat ++ x :: l.items.drop i.toNat
    ∧ l'.items[i.toNat]? = some x
    ∧ (∀ j : Nat, j < i.toNat → l'.items[j]? = l.items[j]?)
    ∧ (∀ j : Nat, i.toNat ≤ j → l'.items[j + 1]? = l.items[j]?)
    ∧ l'.count = l.count + 1 := by
  obtain ⟨h1, h2, h3, h4⟩ := hwf
  by_cases hi : i < 0 ∨ i > l.count
  · rw [scu_list_insertAtInternal, if_pos hi] at h
    simp at h
  · push_neg at hi
    rw [insertAt_true_eq l i x (by omega) (by omega)] at h
    injection h with he hl
    subst hl
    have htn : i.toNat ≤ l.items.length := by omega
    have hA : (l.items.take i.toNat).length = i.toNat := by
      simp [List.length_take]
      omega
    refine ⟨rfl, ?_, ?_, ?_, rfl⟩
    · show (l.items.take i.toNat ++ x :: l.items.drop i.toNat)[i.toNat]? = some x
      rw [List.getElem?_append_right (le_of_eq hA), hA]
      simp
    · intro j hj
      show (l.items.take i.toNat ++ x :: l.items.drop i.toNat)[j]? = l.items[j]?
      rw [List.getElem?_append_left (by omega)]
      exact List.getElem?_take_of_lt hj
    · intro j hj
      show (l.items.take i.toNat ++ x :: l.items.drop i.toNat)[j + 1]? = l.items[j]?
      rw [List.getElem?_append_right (by omega)]
      have hsub : j + 1 - (l.items.take i.toNat).length = (j - i.toNat) + 1 := by
        omega
      rw [hsub]
      rw [List.getElem?_cons_succ]
      rw [List.getElem?_drop]
      have : i.toNat + (j - i.toNat) = j := by omega
      rw [this]

/-- One growth step is not needed when 8 already meets the requirement 4. -/
theorem growLoop_four_eight : growLoop 4 8 = 8 := by
  rw [growLoop_eq]
  norm_num

/-- Claim C4 witness: inserting `99` at index 1 of `[1, 2, 3]` stored at
capacity 3 relocates to capacity 8 and yields `[1, 99, 2, 3]` with count 4. -/
theorem claim_C4_witness :
    WF (⟨3, 3, 8, [1, 2, 3]⟩ : SCUList Int)
    ∧ scu_list_insertAtInternal true (⟨3, 3, 8, [1, 2, 3]⟩ : SCUList Int) 1 99
        = (SCUError.none, ⟨8, 4, 8, [1, 99, 2, 3]⟩)
    ∧ (⟨8, 4, 8, [1, 99, 2, 3]⟩ : SCUList Int).items
        = (⟨3, 3, 8, [1, 2, 3]⟩ : SCUList Int).items.take (1 : Int).toNat
          ++ 99 :: (⟨3, 3, 8, [1, 2, 3]⟩ : SCUList Int).items.drop (1 : Int).toNat
    ∧ (⟨8, 4, 8, [1, 99, 2, 3]⟩ : SCUList Int).count
        = (⟨3, 3, 8, [1, 2, 3]⟩ : SCUList Int).count + 1 := by
  have hw : WF (⟨3, 3, 8, [1, 2, 3]⟩ : SCUList Int) := ⟨by decide, by decide, by decide, by decide⟩
  have hh : scu_list_insertAtInternal true (⟨3, 3, 8, [1, 2, 3]⟩ : SCUList Int) 1 99
      = (SCUError.none, ⟨8, 4, 8, [1, 99, 2, 3]⟩) := by
    simp [scu_list_insertAtInternal, scu_list_ensureCapacityInternal, SCU_INITIAL_CAPACITY,
      growLoop_four_eight]
  have hc := claim_C4 ⟨3, 3, 8, [1, 2, 3]⟩ 1 99 ⟨8, 4, 8, [1, 99, 2, 3]⟩ hw hh
  exact ⟨hw, hh, hc.1, hc.2.2.2.2⟩



/-- Claim C5: a successful `removeAt(i)` removes exactly the element at `i`,
shifting the later elements down by one and decrementing the count; and
`removeRange(1, 2)` on `[10, 20, 30, 40, 50]` yields `[10, 40, 50]` with
count 3. -/
theorem claim_C5 :
    (∀ (α : Type) (l : SCUList α) (i : Int) (l' : SCUList α), WF l →
      scu_list_removeAtInternal l i = (SCUError.none, l') →
        l'.items = l.items.take i.toNat ++ l.items.drop (i.toNat + 1)
        ∧ (∀ j : Nat, j < i.toNat → l'.items[j]? = l.items[j]?)
        ∧ (∀ j : Nat, i.toNat ≤ j → l'.items[j]? = l.items[j + 1]?)
        ∧ l'.count = l.count - 1)
    ∧ scu_list_removeRangeInternal (⟨5, 5, 8, [10, 20, 30, 40, 50]⟩ : SCUList Int) 1 2
        = (SCUError.none, ⟨5, 3, 8, [10, 40, 50]⟩) := by
  refine ⟨?_, by decide⟩
  intro α l i l' hwf h
  obtain ⟨h1, h2, h3, h4⟩ := hwf
  by_cases hi : i < 0 ∨ i ≥ l.count
  · rw [scu_list_removeAtInternal, if_pos hi] at h
    simp at h
  · push_neg at hi
    rw [removeAt_eq l i (by omega) (by omega)] at h
    injection h with he hl
    subst hl
    have htn : i.toNat < l.items.length := by omega
    have hA : (l.items.take i.toNat).length = i.toNat := by
      simp [List.length_take]
      omega
    refine ⟨rfl, ?_, ?_, rfl⟩
    · intro j hj
      show (l.items.take i.toNat ++ l.items.drop (i.toNat + 1))[j]? = l.items[j]?
      rw [List.getElem?_append_left (by omega)]
      exact List.getElem?_take_of_lt hj
    · intro j hj
      show (l.items.take i.toNat ++ l.items.drop (i.toNat + 1))[j]? = l.items[j + 1]?
      rw [List.getElem?_append_right (by omega), hA, List.getElem?_drop]
      have : i.toNat + 1 + (j - i.toNat) = j + 1 := by omega
      rw [this]

/-- Claim C5 witness: removing index 1 of `[7, 8, 9]`. -/
theorem claim_C5_witness :
    WF (⟨3, 3, 1, [7, 8, 9]⟩ : SCUList Int)
    ∧ scu_list_removeAtInternal (⟨3, 3, 1, [7, 8, 9]⟩ : SCUList Int) 1
        = (SCUError.none, ⟨3, 2, 1, [7, 9]⟩)
    ∧ (⟨3, 2, 1, [7, 9]⟩ : SCUList Int).items
        = (⟨3, 3, 1, [7, 8, 9]⟩ : SCUList Int).items.take (1 : Int).toNat
          ++ (⟨3, 3, 1, [7, 8, 9]⟩ : SCUList Int).items.drop ((1 : Int).toNat + 1)
    ∧ (⟨3, 2, 1, [7, 9]⟩ : SCUList Int).count
        = (⟨3, 3, 1, [7, 8, 9]⟩ : SCUList Int).count - 1 := by
  have hw : WF (⟨3, 3, 1, [7, 8, 9]⟩ : SCUList Int) :=
    ⟨by decide, by decide, by decide, by decide⟩
  have hh : scu_list_removeAtInternal (⟨3, 3, 1, [7, 8, 9]⟩ : SCUList Int) 1
      = (SCUError.none, ⟨3, 2, 1, [7, 9]⟩) := by decide
  have hc := claim_C5.1 Int ⟨3, 3, 1, [7, 8, 9]⟩ 1 ⟨3, 2, 1, [7, 9]⟩ hw hh
  exact ⟨hw, hh, hc.1, hc.2.2.2⟩



/-- Closed form of `insertRange` with a working allocator and valid
arguments, covering the `count = 0` no-op case. -/
theorem insertRange_formula (l : SCUList α) (i : Int) (xs : List α) (n : Int)
    (hwf : WF l) (h0 : 0 ≤ i) (h1 : i ≤ l.count) (hn : 0 ≤ n) :
    scu_list_insertRangeInternal true l i xs n =
      (SCUError.none,
        ⟨ensuredCapacity l.capacity (l.count + n), l.count + n, l.itemSize,
          l.items.take i.toNat ++ xs.take n.toNat ++ l.items.drop i.toNat⟩) := by
  obtain ⟨w1, w2, w3, w4⟩ := hwf
  by_cases hz : n = 0
  · subst hz
    rw [insertRange_zero true l i xs h0 h1]
    have hcap : ensuredCapacity l.capacity (l.count + 0) = l.capacity := by
      unfold ensuredCapacity
      rw [if_neg (by omega)]
    obtain ⟨cap, cnt, isz, itms⟩ := l
    simp_all [List.take_append_drop]
  · exact insertRange_true_eq l i xs n h0 h1 (by omega)

/-- Closed form of `removeRange` with valid arguments, covering the
`count = 0` no-op case. -/
theorem removeRange_formula (l : SCUList α) (i : Int) (n : Int)
    (hwf : WF l) (h0 : 0 ≤ i) (hn : 0 ≤ n) (h1 : i + n ≤ l.count) :
    scu_list_removeRangeInternal l i n =
      (SCUError.none,
        ⟨l.capacity, l.count - n, l.itemSize,
          l.items.take i.toNat ++ l.items.drop (i.toNat + n.toNat)⟩) := by
  obtain ⟨w1, w2, w3, w4⟩ := hwf
  by_cases hz : n = 0
  · subst hz
    rw [removeRange_zero l i h0 (by omega)]
    obtain ⟨cap, cnt, isz, itms⟩ := l
    simp_all [List.take_append_drop]
  · exact removeRange_eq l i n h0 (by omega) h1



/-- Bulk `insertRange` refines `n` sequential single-element inserts. -/
theorem insertRange_refines (xs : List α) :
    ∀ (l : SCUList α) (i : Int), WF l → 0 ≤ i → i ≤ l.count →
      scu_list_insertRangeInternal true l i xs (xs.length : Int) = specSeqInsert l i xs := by
  induction xs with
  | nil =>
    intro l i hwf h0 h1
    simp only [List.length_nil, Nat.cast_zero]
    rw [insertRange_zero true l i [] h0 h1]
    rfl
  | cons x xs ih =>
    intro l i hwf h0 h1
    obtain ⟨w1, w2, w3, w4⟩ := hwf
    have hins := insertAt_true_eq l i x h0 h1
    have hwf1 : WF (⟨ensuredCapacity l.capacity (l.count + 1), l.count + 1, l.itemSize,
        l.items.take i.toNat ++ x :: l.items.drop i.toNat⟩ : SCUList α) := by
      refine wf_mk l ⟨w1, w2, w3, w4⟩ 1 _ (by omega) ?_
      simp [List.length_take, List.length_drop]
      omega
    have hstep : specSeqInsert l i (x :: xs)
        = specSeqInsert (⟨ensuredCapacity l.capacity (l.count + 1), l.count + 1, l.itemSize,
            l.items.take i.toNat ++ x :: l.items.drop i.toNat⟩ : SCUList α) (i + 1) xs := by
      rw [specSeqInsert, hins]
    rw [hstep, ← ih _ (i + 1) hwf1 (by omega) (by show i + 1 ≤ l.count + 1; omega)]
    rw [insertRange_formula l i (x :: xs) _ ⟨w1, w2, w3, w4⟩ h0 h1 (by positivity)]
    rw [insertRange_formula _ (i + 1) xs _ hwf1 (by omega) (by show i + 1 ≤ l.count + 1; omega)
      (by positivity)]
    have hA : (l.items.take i.toNat).length = i.toNat := by
      simp [List.length_take]
      omega
    have hi1 : (i + 1).toNat = i.toNat + 1 := by omega
    simp only [Prod.mk.injEq, SCUList.mk.injEq, true_and, and_true]
    refine ⟨?_, ?_, ?_⟩
    · rw [ensuredCapacity_comp l.capacity (l.count + 1) (l.count + 1 + (xs.length : Int))
        (by omega)]
      congr 1
      simp only [List.length_cons]
      omega
    · simp only [List.length_cons]
      omega
    · rw [hi1]
      simp only [Int.toNat_natCast, List.take_length]
      generalize hAeq : l.items.take i.toNat = A at hA ⊢
      generalize hBeq : l.items.drop i.toNat = B
      rw [List.take_append_eq_append_take, List.drop_append_eq_append_drop]
      rw [List.take_of_length_le (by omega), List.drop_eq_nil_of_le (by omega), hA]
      have hsub : i.toNat + 1 - i.toNat = 1 := by omega
      rw [hsub]
      simp



/-- Bulk `removeRange` refines `n` sequential single-element removals. -/
theorem removeRange_refines (k : Nat) :
    ∀ (l : SCUList α) (i : Int), WF l → 0 ≤ i → i + k ≤ l.count →
      scu_list_removeRangeInternal l i (k : Int) = specSeqRemove l i k := by
  induction k with
  | zero =>
    intro l i hwf h0 h1
    simp only [Nat.cast_zero]
    rw [removeRange_zero l i h0 (by omega)]
    rfl
  | succ k ih =>
    intro l i hwf h0 h1
    obtain ⟨w1, w2, w3, w4⟩ := hwf
    have hcast : ((k : Nat) + 1 : Int) ≤ l.count - i := by push_cast at h1 ⊢; omega
    have hrem := removeAt_eq l i h0 (by omega)
    have hwf1 : WF (⟨l.capacity, l.count - 1, l.itemSize,
        l.items.take i.toNat ++ l.items.drop (i.toNat + 1)⟩ : SCUList α) := by
      refine ⟨?_, ?_, w3, ?_⟩
      · show (0 : Int) ≤ l.count - 1
        push_cast at h1
        omega
      · show l.count - 1 ≤ l.capacity
        omega
      · show l.count - 1
          = ((l.items.take i.toNat ++ l.items.drop (i.toNat + 1)).length : Int)
        simp [List.length_take, List.length_drop]
        push_cast at h1
        omega
    have hstep : specSeqRemove l i (k + 1)
        = specSeqRemove (⟨l.capacity, l.count - 1, l.itemSize,
            l.items.take i.toNat ++ l.items.drop (i.toNat + 1)⟩ : SCUList α) i k := by
      rw [specSeqRemove, hrem]
    rw [hstep, ← ih _ i hwf1 h0 (by show i + (k : Int) ≤ l.count - 1; push_cast at h1; omega)]
    push_cast
    rw [removeRange_formula l i ((k : Nat) + 1 : Int) ⟨w1, w2, w3, w4⟩ h0 (by positivity)
      (by push_cast at h1; omega)]
    rw [removeRange_formula _ i (k : Int) hwf1 h0 (by positivity)
      (by show i + (k : Int) ≤ l.count - 1; push_cast at h1; omega)]
    have hA : (l.items.take i.toNat).length = i.toNat := by
      simp [List.length_take]
      push_cast at h1
      omega
    simp only [Prod.mk.injEq, SCUList.mk.injEq, true_and, and_true]
    refine ⟨?_, ?_⟩
    · omega
    · have hk1 : (((k : Nat) + 1 : Int)).toNat = k + 1 := by omega
      have hk0 : ((k : Nat) : Int).toNat = k := by omega
      have hidx : i.toNat + (k + 1) = i.toNat + 1 + k := by omega
      rw [hk1, hk0, hidx]
      rw [List.take_append_eq_append_take, List.drop_append_eq_append_drop, hA]
      rw [List.take_of_length_le (le_of_eq hA)]
      rw [@List.drop_eq_nil_of_le α (l.items.take i.toNat) (i.toNat + k) (by rw [hA]; omega)]
      have hs0 : i.toNat - i.toNat = 0 := by omega
      have hsub : i.toNat + k - i.toNat = k := by omega
      rw [hs0, hsub, List.take_zero, List.append_nil, List.nil_append, List.drop_drop]



/-- Claim C6: `insertRange` is equivalent to `n` sequential single-element
inserts of the given items starting at the same position, and `removeRange`
to `n` sequential single-element removals there, for all valid `n ≥ 0`. -/
theorem claim_C6 :
    (∀ (α : Type) (l : SCUList α) (i : Int) (xs : List α), WF l → 0 ≤ i → i ≤ l.count →
      scu_list_insertRangeInternal true l i xs (xs.length : Int) = specSeqInsert l i xs)
    ∧ (∀ (α : Type) (l : SCUList α) (i n : Int), WF l → 0 ≤ i → 0 ≤ n → i + n ≤ l.count →
      scu_list_removeRangeInternal l i n = specSeqRemove l i n.toNat) := by
  constructor
  · intro α l i xs hwf h0 h1
    exact insertRange_refines xs l i hwf h0 h1
  · intro α l i n hwf h0 hn h1
    have h2 := removeRange_refines n.toNat l i hwf h0 (by omega)
    rwa [Int.toNat_of_nonneg hn] at h2

/-- Claim C6 witness: a bulk insert and a bulk removal on concrete lists
agree with their sequential counterparts. -/
theorem claim_C6_witness :
    WF (⟨3, 3, 1, [1, 2, 3]⟩ : SCUList Int)
    ∧ scu_list_insertRangeInternal true (⟨3, 3, 1, [1, 2, 3]⟩ : SCUList Int) 1 [10, 20]
        (([10, 20] : List Int).length : Int)
        = specSeqInsert (⟨3, 3, 1, [1, 2, 3]⟩ : SCUList Int) 1 [10, 20]
    ∧ scu_list_removeRangeInternal (⟨3, 3, 1, [1, 2, 3]⟩ : SCUList Int) 1 2
        = specSeqRemove (⟨3, 3, 1, [1, 2, 3]⟩ : SCUList Int) 1 (2 : Int).toNat := by
  have hw : WF (⟨3, 3, 1, [1, 2, 3]⟩ : SCUList Int) :=
    ⟨by decide, by decide, by decide, by decide⟩
  exact ⟨hw, claim_C6.1 Int _ 1 [10, 20] hw (by decide) (by decide),
    claim_C6.2 Int _ 1 2 hw (by decide) (by decide) (by decide)⟩



/-- With a nonnegative requirement, `ensureCapacity` never reports an
invalid argument. -/
theorem ensure_no_invalid (ok : Bool) (l : SCUList α) (m : Int) (hm : 0 ≤ m) :
    (scu_list_ensureCapacityInternal ok l m).1 ≠ SCUError.invalidArgument := by
  unfold scu_list_ensureCapacityInternal
  split
  · rename_i hneg
    exact absurd hneg (by omega)
  · split
    · split <;> simp
    · simp

/-- Claim C7: an operation reports `INVALID_ARGUMENT` exactly when its
precondition is violated, the violation is detected before any mutation, and
the list is left unchanged; in particular `ensureCapacity(-1)` fails and
changes nothing. -/
theorem claim_C7 :
    (∀ (α : Type) (ok : Bool) (l : SCUList α) (op : SCUOp α), WF l →
      (((execOp ok l op).1 = SCUError.invalidArgument) ↔ violates l op)
      ∧ ((execOp ok l op).1 = SCUError.invalidArgument → (execOp ok l op).2 = l))
    ∧ scu_list_ensureCapacityInternal true (⟨2, 1, 1, [5]⟩ : SCUList Int) (-1)
        = (SCUError.invalidArgument, ⟨2, 1, 1, [5]⟩) := by
  refine ⟨?_, by decide⟩
  intro α ok l op hwf
  obtain ⟨h1, h2, h3, h4⟩ := hwf
  cases op with
  | add x =>
    rcases hE : scu_list_ensureCapacityInternal ok l (l.count + 1) with ⟨e, l'⟩
    have hne : e ≠ SCUError.invalidArgument := by
      have hh := ensure_no_invalid ok l (l.count + 1) (by omega)
      rw [hE] at hh
      exact hh
    simp only [execOp, scu_list_addInternal, hE]
    cases e
    · exact ⟨by simp [violates], by simp⟩
    · exact absurd rfl hne
    all_goals exact ⟨by simp [violates], by simp⟩
  | addRange xs n =>
    by_cases hn0 : n < 0
    · simp only [execOp, scu_list_addRangeInternal, if_pos hn0]
      exact ⟨by simp [violates, hn0], fun _ => trivial⟩
    · by_cases hn1 : n > 0
      · rcases hE : scu_list_ensureCapacityInternal ok l (l.count + n) with ⟨e, l'⟩
        have hne : e ≠ SCUError.invalidArgument := by
          have hh := ensure_no_invalid ok l (l.count + n) (by omega)
          rw [hE] at hh
          exact hh
        simp only [execOp, scu_list_addRangeInternal, if_neg hn0, if_pos hn1, hE]
        cases e
        · exact ⟨by simp [violates, hn0], by simp⟩
        · exact absurd rfl hne
        all_goals exact ⟨by simp [violates, hn0], by simp⟩
      · simp only [execOp, scu_list_addRangeInternal, if_neg hn0, if_neg hn1]
        exact ⟨by simp [violates, hn0], by simp⟩
  | insertAt i x =>
    by_cases hi : i < 0 ∨ i > l.count
    · simp only [execOp, scu_list_insertAtInternal, if_pos hi]
      exact ⟨by simp [violates, hi], fun _ => trivial⟩
    · rcases hE : scu_list_ensureCapacityInternal ok l (l.count + 1) with ⟨e, l'⟩
      have hne : e ≠ SCUError.invalidArgument := by
        have hh := ensure_no_invalid ok l (l.count + 1) (by omega)
        rw [hE] at hh
        exact hh
      simp only [execOp, scu_list_insertAtInternal, if_neg hi, hE]
      cases e
      · exact ⟨by simp [violates, hi], by simp⟩
      · exact absurd rfl hne
      all_goals exact ⟨by simp [violates, hi], by simp⟩
  | insertRange i xs n =>
    by_cases hi : i < 0 ∨ i > l.count ∨ n < 0
    · simp only [execOp, scu_list_insertRangeInternal, if_pos hi]
      exact ⟨by simp [violates, hi], fun _ => trivial⟩
    · by_cases hn1 : n > 0
      · rcases hE : scu_list_ensureCapacityInternal ok l (l.count + n) with ⟨e, l'⟩
        have hne : e ≠ SCUError.invalidArgument := by
          have hh := ensure_no_invalid ok l (l.count + n) (by omega)
          rw [hE] at hh
          exact hh
        simp only [execOp, scu_list_insertRangeInternal, if_neg hi, if_pos hn1, hE]
        cases e
        · exact ⟨by simp [violates, hi], by simp⟩
        · exact absurd rfl hne
        all_goals exact ⟨by simp [violates, hi], by simp⟩
      · simp only [execOp, scu_list_insertRangeInternal, if_neg hi, if_neg hn1]
        exact ⟨by simp [violates, hi], by simp⟩
  | removeAt i =>
    by_cases hi : i < 0 ∨ i ≥ l.count
    · simp only [execOp, scu_list_removeAtInternal, if_pos hi]
      exact ⟨by simp [violates, hi], fun _ => trivial⟩
    · simp only [execOp, scu_list_removeAtInternal, if_neg hi]
      exact ⟨by simp [violates, hi], by simp⟩
  | removeRange i n =>
    by_cases hi : i < 0 ∨ n < 0 ∨ i + n > l.count
    · simp only [execOp, scu_list_removeRangeInternal, if_pos hi]
      exact ⟨by simp [violates, hi], fun _ => trivial⟩
    · by_cases hn1 : n > 0
      · simp only [execOp, scu_list_removeRangeInternal, if_neg hi, if_pos hn1]
        exact ⟨by simp [violates, hi], by simp⟩
      · simp only [execOp, scu_list_removeRangeInternal, if_neg hi, if_neg hn1]
        exact ⟨by simp [violates, hi], by simp⟩
  | clear =>
    simp only [execOp]
    exact ⟨by simp [violates], by simp⟩
  | ensureCapacity m =>
    by_cases hm : m < 0
    · simp only [execOp, scu_list_ensureCapacityInternal, if_pos hm]
      exact ⟨by simp [violates, hm], fun _ => trivial⟩
    · rcases hE : scu_list_ensureCapacityInternal ok l m with ⟨e, l'⟩
      have hne : e ≠ SCUError.invalidArgument := by
        have hh := ensure_no_invalid ok l m (by omega)
        rw [hE] at hh
        exact hh
      simp only [execOp, hE]
      cases e
      · exact ⟨by simp [violates, hm], by simp⟩
      · exact absurd rfl hne
      all_goals exact ⟨by simp [violates, hm], by simp⟩
  | trimToCount =>
    by_cases hc : l.capacity > l.count
    · cases ok with
      | true =>
        have htr : scu_list_trimToCountInternal true l
            = (SCUError.none, { l with capacity := l.count }) := by
          unfold scu_list_trimToCountInternal
          rw [if_pos hc, if_pos rfl]
        simp only [execOp, htr]
        exact ⟨by simp [violates], by simp⟩
      | false =>
        have htr : scu_list_trimToCountInternal false l = (SCUError.outOfMemory, l) := by
          unfold scu_list_trimToCountInternal
          rw [if_pos hc]
          rfl
        simp only [execOp, htr]
        exact ⟨by simp [violates], by simp⟩
    · have htr : scu_list_trimToCountInternal ok l = (SCUError.none, l) := by
        unfold scu_list_trimToCountInternal
        rw [if_neg hc]
      simp only [execOp, htr]
      exact ⟨by simp [violates], by simp⟩

/-- Claim C7 witness: the iff instantiated at a violating `removeAt` and the
unchanged-state consequence. -/
theorem claim_C7_witness :
    WF (⟨2, 1, 1, [5]⟩ : SCUList Int)
    ∧ (((execOp true (⟨2, 1, 1, [5]⟩ : SCUList Int) (SCUOp.removeAt 3)).1
          = SCUError.invalidArgument)
        ↔ violates (⟨2, 1, 1, [5]⟩ : SCUList Int) (SCUOp.removeAt (3 : Int)))
    ∧ ((execOp true (⟨2, 1, 1, [5]⟩ : SCUList Int) (SCUOp.removeAt 3)).1
          = SCUError.invalidArgument
        → (execOp true (⟨2, 1, 1, [5]⟩ : SCUList Int) (SCUOp.removeAt 3)).2
          = ⟨2, 1, 1, [5]⟩) := by
  have hw : WF (⟨2, 1, 1, [5]⟩ : SCUList Int) :=
    ⟨by decide, by decide, by decide, by decide⟩
  have hc := claim_C7.1 Int true ⟨2, 1, 1, [5]⟩ (SCUOp.removeAt 3) hw
  exact ⟨hw, hc.1, hc.2⟩



/-- Claim C8: a successful `trimToCount` leaves `capacity = count`, and an
immediately repeated `trimToCount` is a success that changes nothing and
attempts no reallocation (it succeeds even when the allocator would fail). -/
theorem claim_C8 (l l' : SCUList α) (ok : Bool) (hwf : WF l)
    (h : scu_list_trimToCountInternal ok l = (SCUError.none, l')) :
    l'.capacity = l'.count
    ∧ ∀ ok2 : Bool, scu_list_trimToCountInternal ok2 l' = (SCUError.none, l') := by
  obtain ⟨h1, h2, h3, h4⟩ := hwf
  by_cases hc : l.capacity > l.count
  · cases ok with
    | false =>
      have htr : scu_list_trimToCountInternal false l = (SCUError.outOfMemory, l) := by
        unfold scu_list_trimToCountInternal
        rw [if_pos hc]
        rfl
      rw [htr] at h
      simp at h
    | true =>
      have htr : scu_list_trimToCountInternal true l
          = (SCUError.none, { l with capacity := l.count }) := by
        unfold scu_list_trimToCountInternal
        rw [if_pos hc, if_pos rfl]
      rw [htr] at h
      injection h with he hl
      subst hl
      refine ⟨rfl, ?_⟩
      intro ok2
      unfold scu_list_trimToCountInternal
      rw [if_neg (by show ¬l.count > l.count; omega)]
  · have htr : scu_list_trimToCountInternal ok l = (SCUError.none, l) := by
      unfold scu_list_trimToCountInternal
      rw [if_neg hc]
    rw [htr] at h
    injection h with he hl
    subst hl
    refine ⟨by omega, ?_⟩
    intro ok2
    unfold scu_list_trimToCountInternal
    rw [if_neg hc]

/-- Claim C8 witness: trimming `[1, 2]` from capacity 5 to capacity 2, after
which re-trimming is a no-op for any allocator fate. -/
theorem claim_C8_witness :
    WF (⟨5, 2, 1, [1, 2]⟩ : SCUList Int)
    ∧ scu_list_trimToCountInternal true (⟨5, 2, 1, [1, 2]⟩ : SCUList Int)
        = (SCUError.none, ⟨2, 2, 1, [1, 2]⟩)
    ∧ (⟨2, 2, 1, [1, 2]⟩ : SCUList Int).capacity = (⟨2, 2, 1, [1, 2]⟩ : SCUList Int).count
    ∧ ∀ ok2 : Bool, scu_list_trimToCountInternal ok2 (⟨2, 2, 1, [1, 2]⟩ : SCUList Int)
        = (SCUError.none, ⟨2, 2, 1, [1, 2]⟩) := by
  have hw : WF (⟨5, 2, 1, [1, 2]⟩ : SCUList Int) :=
    ⟨by decide, by decide, by decide, by decide⟩
  have hh : scu_list_trimToCountInternal true (⟨5, 2, 1, [1, 2]⟩ : SCUList Int)
      = (SCUError.none, ⟨2, 2, 1, [1, 2]⟩) := by decide
  have hc := claim_C8 ⟨5, 2, 1, [1, 2]⟩ ⟨2, 2, 1, [1, 2]⟩ true hw hh
  exact ⟨hw, hh, hc.1, hc.2⟩

/-- Claim C9: the range operations with a zero count are complete no-ops
that succeed — whatever the allocator fate and whatever the source list (in
particular a null source is never dereferenced) — including `removeRange` at
the one-past-the-end index. -/
theorem claim_C9 :
    (∀ (α : Type) (ok : Bool) (l : SCUList α) (xs : List α),
      scu_list_addRangeInternal ok l xs 0 = (SCUError.none, l))
    ∧ (∀ (α : Type) (ok : Bool) (l : SCUList α) (i : Int) (xs : List α),
        0 ≤ i → i ≤ l.count →
        scu_list_insertRangeInternal ok l i xs 0 = (SCUError.none, l))
    ∧ (∀ (α : Type) (l : SCUList α) (i : Int), 0 ≤ i → i ≤ l.count →
        scu_list_removeRangeInternal l i 0 = (SCUError.none, l)) :=
  ⟨fun _ ok l xs => addRange_zero ok l xs,
    fun _ ok l i xs h0 h1 => insertRange_zero ok l i xs h0 h1,
    fun _ l i h0 h1 => removeRange_zero l i h0 h1⟩

/-- Claim C9 witness: zero-count `addRange` under a failing allocator and
zero-count `removeRange` at the one-past-the-end index. -/
theorem claim_C9_witness :
    (0 : Int) ≤ 1 ∧ (1 : Int) ≤ (⟨1, 1, 1, [9]⟩ : SCUList Int).count
    ∧ scu_list_addRangeInternal false (⟨1, 1, 1, [9]⟩ : SCUList Int) [] 0
        = (SCUError.none, ⟨1, 1, 1, [9]⟩)
    ∧ scu_list_removeRangeInternal (⟨1, 1, 1, [9]⟩ : SCUList Int) 1 0
        = (SCUError.none, ⟨1, 1, 1, [9]⟩) :=
  ⟨by decide, by decide, claim_C9.1 Int false ⟨1, 1, 1, [9]⟩ [],
    claim_C9.2.2 Int ⟨1, 1, 1, [9]⟩ 1 (by decide) (by decide)⟩

/-- Claim C10: the generator is deterministic in its seed — `setSeed` with
the same seed produces identical states whatever the previous state,
`withSeed` initializes exactly as `setSeed` whatever the fresh allocation
held, equal states produce identical `scu_next` output sequences, the state
is the SplitMix64 expansion of the seed, and `getSeed` returns the seed most
recently set. -/
theorem claim_C10 (r1 r2 junk : SCURandom) (seed : Nat) (hs : seed < 2 ^ 64) :
    scu_random_setSeed r1 seed = scu_random_setSeed r2 seed
    ∧ scu_random_withSeed junk true seed = Option.some (scu_random_setSeed r1 seed)
    ∧ (∀ n : Nat, scu_nextSeq (scu_random_setSeed r1 seed) n
        = scu_nextSeq (scu_random_setSeed r2 seed) n)
    ∧ (scu_random_setSeed r1 seed).s0 = (scu_splitmix64 seed).2
    ∧ (scu_random_setSeed r1 seed).s1 = (scu_splitmix64 (scu_splitmix64 seed).1).2
    ∧ (scu_random_setSeed r1 seed).s2
        = (scu_splitmix64 (scu_splitmix64 (scu_splitmix64 seed).1).1).2
    ∧ (scu_random_setSeed r1 seed).s3
        = (scu_splitmix64 (scu_splitmix64 (scu_splitmix64 (scu_splitmix64 seed).1).1).1).2
    ∧ scu_random_getSeed (scu_random_setSeed r1 seed) = seed := by
  have hset : scu_random_setSeed r1 seed = scu_random_setSeed r2 seed := rfl
  exact ⟨hset, rfl, fun n => by rw [hset], rfl, rfl, rfl, rfl, rfl⟩

/-- Claim C10 witness: two differently pre-seeded generators reseeded with
42 coincide, and `getSeed` reads back 42. -/
theorem claim_C10_witness :
    (42 : Nat) < 2 ^ 64
    ∧ scu_random_setSeed ⟨0, 0, 0, 0, 0⟩ 42 = scu_random_setSeed ⟨1, 2, 3, 4, 5⟩ 42
    ∧ scu_nextSeq (scu_random_setSeed ⟨0, 0, 0, 0, 0⟩ 42) 3
        = scu_nextSeq (scu_random_setSeed ⟨1, 2, 3, 4, 5⟩ 42) 3
    ∧ scu_random_getSeed (scu_random_setSeed ⟨0, 0, 0, 0, 0⟩ 42) = 42 := by
  have hc := claim_C10 ⟨0, 0, 0, 0, 0⟩ ⟨1, 2, 3, 4, 5⟩ ⟨0, 0, 0, 0, 0⟩ 42 (by norm_num)
  exact ⟨by norm_num, hc.1, hc.2.2.1 3, hc.2.2.2.2.2.2.2⟩

end SCU
